import Mathlib

/-!
Verification of the easegress filter-pipeline engine and its HTTP
statistics collector, shallowly embedded from
`src/pkg/util/httpstat/httpstat.go` and
`src/pkg/object/pipeline/pipeline.go`.

Machine integers (Go `uint64`) are modelled as `Nat` with explicit
reduction modulo `2^64` where the source performs wrapping arithmetic.
Go `float64` EWMA rates produced by the external go-metrics library are
modelled as `ℚ` parameters of the snapshot computation; the library
itself is outside the repository. Wall-clock durations measured inside
`Pipeline.Handle` are modelled as opaque rendered strings supplied by
the filter-behaviour oracle, since real time is external
nondeterminism.
-/

namespace Easegress

/-- `2^64`, the modulus of Go's `uint64` arithmetic. -/
def u64 : Nat := 2 ^ 64

/-- `Metric` (httpstat.go): one per-request observation. `statusCode` is a
Go `int`, `duration` is a Go `time.Duration`, i.e. a signed 64-bit count of
nanoseconds; both are modelled as `Int`. The two sizes are `uint64` values. -/
structure Metric where
  statusCode : Int
  duration : Int
  reqSize : Nat
  respSize : Nat
deriving DecidableEq

/-- `Metric.isErr` (httpstat.go:106-108): `m.StatusCode >= 400`. -/
def Metric.isErr (m : Metric) : Bool := 400 ≤ m.statusCode

/-- `uint64(m.Duration.Milliseconds())` (httpstat.go:152).
`Duration.Milliseconds` divides the nanosecond count by `10^6` truncating
toward zero (Go integer division, `Int.tdiv`); the conversion of the signed
result to `uint64` is reduction modulo `2^64`. -/
def durationMs (d : Int) : Nat := ((Int.tdiv d 1000000) % (2 ^ 64 : Int)).toNat

/-- The `uint64` counters of `HTTPStat` (httpstat.go:34-61). The EWMA
accumulators, duration sampler and status-code counter live in external
packages and are not part of this embedding. -/
structure HTTPStat where
  count : Nat
  errCount : Nat
  total : Nat
  min : Nat
  max : Nat
  reqSize : Nat
  respSize : Nat
deriving DecidableEq

/-- `New` (httpstat.go:111-128): all counters zero except `min`, which is
initialised to `math.MaxUint64`. -/
def HTTPStat.new : HTTPStat :=
  { count := 0, errCount := 0, total := 0, min := u64 - 1, max := 0
    reqSize := 0, respSize := 0 }

/-- `Stat` (httpstat.go:131-179) restricted to the `uint64` counters, for a
single sequential call: the CAS retry loops on `min`/`max` reduce to a
plain compare-and-store when there is no interleaving. -/
def stat (hs : HTTPStat) (m : Metric) : HTTPStat :=
  let d := durationMs m.duration
  { count := (hs.count + 1) % u64
    errCount := if m.isErr then (hs.errCount + 1) % u64 else hs.errCount
    total := (hs.total + d) % u64
    min := if d ≥ hs.min then hs.min else d
    max := if d ≤ hs.max then hs.max else d
    reqSize := (hs.reqSize + m.reqSize) % u64
    respSize := (hs.respSize + m.respSize) % u64 }

/-- A sequence of sequential `Stat` calls. -/
def statList (hs : HTTPStat) (ms : List Metric) : HTTPStat := ms.foldl stat hs

/-- The fields of the `Status` snapshot (httpstat.go:72-103) that this
embedding covers: counts, the three error-percentage fields, and the
latency min/mean/max. -/
structure Status where
  count : Nat
  errCount : Nat
  m1ErrPercent : ℚ
  m5ErrPercent : ℚ
  m15ErrPercent : ℚ
  min : Nat
  max : Nat
  mean : Nat
deriving DecidableEq

/-- `Status` (httpstat.go:183-252). The six ticked EWMA rates are passed in
as parameters (`m1 m5 m15` throughput, `m1Err m5Err m15Err` errors); the
percentage computation (lines 196-205) is transcribed exactly as written,
including the repeated assignment to the `m1ErrPercent` variable, and the
mean/min guard (lines 213-217) follows. -/
def snapshot (hs : HTTPStat) (m1 m5 m15 m1Err m5Err m15Err : ℚ) : Status :=
  let m1ErrPercent : ℚ := 0
  let m5ErrPercent : ℚ := 0
  let m15ErrPercent : ℚ := 0
  let m1ErrPercent := if m1 > 0 then m1Err / m1 else m1ErrPercent
  let m1ErrPercent := if m5 > 0 then m5Err / m5 else m1ErrPercent
  let m1ErrPercent := if m15 > 0 then m15Err / m15 else m1ErrPercent
  let meanMin : Nat × Nat :=
    if hs.count > 0 then (hs.total / hs.count, hs.min) else (0, 0)
  { count := hs.count
    errCount := hs.errCount
    m1ErrPercent := m1ErrPercent
    m5ErrPercent := m5ErrPercent
    m15ErrPercent := m15ErrPercent
    min := meanMin.2
    max := hs.max
    mean := meanMin.1 }

/-- C1: the snapshot of an idle-throughput window still overwrites
`m1ErrPercent`: with rates `m1 = 0, m5 = 2, m5Err = 1` (all others `0`)
the code reports `M1ErrPercent = 1/2` and `M5ErrPercent = 0`, where the
claim requires `M1ErrPercent = 0` and `M5ErrPercent = 1/2`: each field is
supposed to come from its own window. -/
theorem c1_err_percent_overwritten :
    (snapshot HTTPStat.new 0 2 0 0 1 0).m1ErrPercent = 1 / 2 ∧
    (snapshot HTTPStat.new 0 2 0 0 1 0).m5ErrPercent = 0 ∧
    (snapshot HTTPStat.new 0 2 0 0 1 0).m15ErrPercent = 0 := by
  refine ⟨?_, ?_, ?_⟩ <;> norm_num [snapshot, HTTPStat.new]

/-- After a sequence of sequential `Stat` calls the `count` field holds the
number of calls modulo `2^64`. -/
theorem statList_count (ms : List Metric) :
    ∀ hs : HTTPStat, hs.count < u64 →
      (statList hs ms).count = (hs.count + ms.length) % u64 := by
  induction ms with
  | nil =>
    intro hs h
    simp [statList, Nat.mod_eq_of_lt h]
  | cons m ms ih =>
    intro hs h
    have h1 : (stat hs m).count = (hs.count + 1) % u64 := rfl
    have h2 : (stat hs m).count < u64 := by
      rw [h1]; exact Nat.mod_lt _ (by simp [u64])
    have := ih (stat hs m) h2
    simp only [statList, List.foldl_cons] at *
    rw [this, h1, Nat.mod_add_mod]
    simp only [List.length_cons]
    congr 1
    omega

/-- After a sequence of sequential `Stat` calls the `errCount` field holds
the initial value plus the number of error calls, modulo `2^64`. -/
theorem statList_errCount (ms : List Metric) :
    ∀ hs : HTTPStat, hs.errCount < u64 →
      (statList hs ms).errCount = (hs.errCount + ms.countP Metric.isErr) % u64 := by
  induction ms with
  | nil =>
    intro hs h
    simp [statList, Nat.mod_eq_of_lt h]
  | cons m ms ih =>
    intro hs h
    by_cases he : m.isErr
    · have h1 : (stat hs m).errCount = (hs.errCount + 1) % u64 := by
        simp [stat, he]
      have h2 : (stat hs m).errCount < u64 := by
        rw [h1]; exact Nat.mod_lt _ (by simp [u64])
      have := ih (stat hs m) h2
      simp only [statList, List.foldl_cons] at *
      rw [this, h1, Nat.mod_add_mod, List.countP_cons_of_pos _ _ he]
      congr 1
      omega
    · have h1 : (stat hs m).errCount = hs.errCount := by
        simp [stat, he]
      have := ih (stat hs m) (by rw [h1]; exact h)
      simp only [statList, List.foldl_cons] at *
      rw [this, h1, List.countP_cons_of_neg _ _ he]

/-- After a sequence of sequential `Stat` calls the `total` field holds the
initial value plus the sum of the millisecond durations, modulo `2^64`. -/
theorem statList_total (ms : List Metric) :
    ∀ hs : HTTPStat, hs.total < u64 →
      (statList hs ms).total =
        (hs.total + (ms.map fun m => durationMs m.duration).sum) % u64 := by
  induction ms with
  | nil =>
    intro hs h
    simp [statList, Nat.mod_eq_of_lt h]
  | cons m ms ih =>
    intro hs h
    have h1 : (stat hs m).total = (hs.total + durationMs m.duration) % u64 := rfl
    have h2 : (stat hs m).total < u64 := by
      rw [h1]; exact Nat.mod_lt _ (by simp [u64])
    have := ih (stat hs m) h2
    simp only [statList, List.foldl_cons, List.map_cons, List.sum_cons] at *
    rw [this, h1, Nat.mod_add_mod]
    congr 1
    omega

/-- The `min` field after a sequence of `Stat` calls is the running minimum
of the initial value and the millisecond durations. -/
theorem statList_min (ms : List Metric) :
    ∀ hs : HTTPStat,
      (statList hs ms).min =
        (ms.map fun m => durationMs m.duration).foldl Nat.min hs.min := by
  induction ms with
  | nil => intro hs; rfl
  | cons m ms ih =>
    intro hs
    have h1 : (stat hs m).min = Nat.min hs.min (durationMs m.duration) := by
      simp only [stat, Nat.min_def, ge_iff_le]
    simp only [statList, List.foldl_cons, List.map_cons] at *
    rw [ih (stat hs m), h1]

/-- The `max` field after a sequence of `Stat` calls is the running maximum
of the initial value and the millisecond durations. -/
theorem statList_max (ms : List Metric) :
    ∀ hs : HTTPStat,
      (statList hs ms).max =
        (ms.map fun m => durationMs m.duration).foldl Nat.max hs.max := by
  induction ms with
  | nil => intro hs; rfl
  | cons m ms ih =>
    intro hs
    have h1 : (stat hs m).max = Nat.max hs.max (durationMs m.duration) := by
      simp only [stat, Nat.max_def]
      split <;> split <;> omega
    simp only [statList, List.foldl_cons, List.map_cons] at *
    rw [ih (stat hs m), h1]

/-- A running `Nat.min` fold never exceeds its seed. -/
theorem foldl_min_le_seed (l : List Nat) : ∀ a : Nat, l.foldl Nat.min a ≤ a := by
  induction l with
  | nil => intro a; exact Nat.le_refl a
  | cons b l ih =>
    intro a
    simp only [List.foldl_cons]
    exact Nat.le_trans (ih _) (Nat.min_le_left _ _)

/-- A running `Nat.max` fold dominates its seed. -/
theorem le_foldl_max_seed (l : List Nat) : ∀ a : Nat, a ≤ l.foldl Nat.max a := by
  induction l with
  | nil => intro a; exact Nat.le_refl a
  | cons b l ih =>
    intro a
    simp only [List.foldl_cons]
    exact Nat.le_trans (Nat.le_max_left _ _) (ih _)

/-- A running `Nat.min` fold is bounded by every list element. -/
theorem foldl_min_le {l : List Nat} {x : Nat} (hx : x ∈ l) :
    ∀ a, l.foldl Nat.min a ≤ x := by
  induction l with
  | nil => cases hx
  | cons b l ih =>
    intro a
    rcases List.mem_cons.mp hx with h | h
    · subst h
      simp only [List.foldl_cons]
      exact Nat.le_trans (foldl_min_le_seed l _) (Nat.min_le_right _ _)
    · exact ih h _

/-- A running `Nat.max` fold dominates every list element. -/
theorem le_foldl_max {l : List Nat} {x : Nat} (hx : x ∈ l) :
    ∀ a, x ≤ l.foldl Nat.max a := by
  induction l with
  | nil => cases hx
  | cons b l ih =>
    intro a
    rcases List.mem_cons.mp hx with h | h
    · subst h
      simp only [List.foldl_cons]
      exact Nat.le_trans (Nat.le_max_right _ _) (le_foldl_max_seed l _)
    · exact ih h _

/-- A list of naturals each at least `c` sums to at least `length * c`. -/
theorem length_mul_le_sum {l : List Nat} {c : Nat} (h : ∀ x ∈ l, c ≤ x) :
    l.length * c ≤ l.sum := by
  induction l with
  | nil => simp
  | cons b l ih =>
    simp only [List.length_cons, List.sum_cons, Nat.succ_mul]
    have hb := h b (List.mem_cons_self b l)
    have := ih fun x hx => h x (List.mem_cons_of_mem b hx)
    omega

/-- A list of naturals each at most `c` sums to at most `length * c`. -/
theorem sum_le_length_mul {l : List Nat} {c : Nat} (h : ∀ x ∈ l, x ≤ c) :
    l.sum ≤ l.length * c := by
  induction l with
  | nil => simp
  | cons b l ih =>
    simp only [List.length_cons, List.sum_cons, Nat.succ_mul]
    have hb := h b (List.mem_cons_self b l)
    have := ih fun x hx => h x (List.mem_cons_of_mem b hx)
    omega

/-- C6: for every sequence of `N` sequential `Stat` calls on a fresh
`HTTPStat` (with `N` below the `uint64` modulus, which sequential calls
cannot reach), the final `Status` snapshot reports `count = N` and
`errCount` equal to the number of calls whose metric had
`statusCode ≥ 400`, whatever the six EWMA rates are. -/
theorem c6_count_errCount (ms : List Metric) (r1 r2 r3 r4 r5 r6 : ℚ)
    (h : ms.length < u64) :
    (snapshot (statList HTTPStat.new ms) r1 r2 r3 r4 r5 r6).count = ms.length ∧
    (snapshot (statList HTTPStat.new ms) r1 r2 r3 r4 r5 r6).errCount =
      ms.countP Metric.isErr := by
  have hc : (statList HTTPStat.new ms).count = ms.length % u64 := by
    have h1 := statList_count ms HTTPStat.new (by simp [HTTPStat.new, u64])
    simpa [HTTPStat.new] using h1
  have he : (statList HTTPStat.new ms).errCount = ms.countP Metric.isErr % u64 := by
    have h1 := statList_errCount ms HTTPStat.new (by simp [HTTPStat.new, u64])
    simpa [HTTPStat.new] using h1
  constructor
  · show (statList HTTPStat.new ms).count = ms.length
    rw [hc, Nat.mod_eq_of_lt h]
  · show (statList HTTPStat.new ms).errCount = ms.countP Metric.isErr
    rw [he, Nat.mod_eq_of_lt (Nat.lt_of_le_of_lt (ms.countP_le_length _) h)]

/-- Witness for C6 at a concrete two-call sequence, one of whose metrics is
an error (status 503). -/
theorem c6_count_errCount_witness :
    (snapshot (statList HTTPStat.new
        [⟨200, 5000000, 10, 20⟩, ⟨503, 7000000, 3, 4⟩]) 0 0 0 0 0 0).count =
      ([⟨200, 5000000, 10, 20⟩, ⟨503, 7000000, 3, 4⟩] : List Metric).length ∧
    (snapshot (statList HTTPStat.new
        [⟨200, 5000000, 10, 20⟩, ⟨503, 7000000, 3, 4⟩]) 0 0 0 0 0 0).errCount =
      ([⟨200, 5000000, 10, 20⟩, ⟨503, 7000000, 3, 4⟩] : List Metric).countP
        Metric.isErr :=
  c6_count_errCount [⟨200, 5000000, 10, 20⟩, ⟨503, 7000000, 3, 4⟩]
    0 0 0 0 0 0 (by norm_num [u64])

/-- C7 (amended): under the no-wraparound side conditions — fewer than
`2^64` calls and a millisecond total below `2^64` — the snapshot satisfies
`min ≤ mean ≤ max` whenever at least one call was made; and whenever the
`count` counter is zero the snapshot reports `min = 0` and `mean = 0`
despite `min` being internally initialised to the maximum `uint64` value.
As literally stated the claim fails, because `uint64` conversion wraps
negative durations: see the counterexample. -/
theorem c7_min_mean_max (ms : List Metric) (r1 r2 r3 r4 r5 r6 : ℚ)
    (hlen : ms.length < u64)
    (hsum : (ms.map fun m => durationMs m.duration).sum < u64) :
    ((statList HTTPStat.new ms).count = 0 →
      (snapshot (statList HTTPStat.new ms) r1 r2 r3 r4 r5 r6).min = 0 ∧
      (snapshot (statList HTTPStat.new ms) r1 r2 r3 r4 r5 r6).mean = 0) ∧
    (ms ≠ [] →
      (snapshot (statList HTTPStat.new ms) r1 r2 r3 r4 r5 r6).min ≤
        (snapshot (statList HTTPStat.new ms) r1 r2 r3 r4 r5 r6).mean ∧
      (snapshot (statList HTTPStat.new ms) r1 r2 r3 r4 r5 r6).mean ≤
        (snapshot (statList HTTPStat.new ms) r1 r2 r3 r4 r5 r6).max) := by
  constructor
  · intro h0
    simp [snapshot, h0]
  · intro hne
    have hlpos : 0 < ms.length := List.length_pos.mpr hne
    have hc : (statList HTTPStat.new ms).count = ms.length := by
      have h1 := statList_count ms HTTPStat.new (by simp [HTTPStat.new, u64])
      simpa [HTTPStat.new, Nat.mod_eq_of_lt hlen] using h1
    have ht : (statList HTTPStat.new ms).total =
        (ms.map fun m => durationMs m.duration).sum := by
      have h1 := statList_total ms HTTPStat.new (by simp [HTTPStat.new, u64])
      simpa [HTTPStat.new, Nat.mod_eq_of_lt hsum] using h1
    set hs := statList HTTPStat.new ms with hhs
    set ds := ms.map fun m => durationMs m.duration with hds
    have hmin : hs.min = ds.foldl Nat.min (u64 - 1) :=
      statList_min ms HTTPStat.new
    have hmax : hs.max = ds.foldl Nat.max 0 :=
      statList_max ms HTTPStat.new
    have hcpos : 0 < hs.count := hc ▸ hlpos
    have hmean : (snapshot hs r1 r2 r3 r4 r5 r6).mean = hs.total / hs.count := by
      simp [snapshot, hcpos]
    have hminf : (snapshot hs r1 r2 r3 r4 r5 r6).min = hs.min := by
      simp [snapshot, hcpos]
    have hmaxf : (snapshot hs r1 r2 r3 r4 r5 r6).max = hs.max := rfl
    have hdslen : ds.length = ms.length := List.length_map _ _
    constructor
    · rw [hminf, hmean, hmin, ht, hc]
      have hall : ∀ x ∈ ds, ds.foldl Nat.min (u64 - 1) ≤ x :=
        fun x hx => foldl_min_le hx _
      have h1 : ms.length * (ds.foldl Nat.min (u64 - 1)) ≤ ds.sum := by
        rw [← hdslen]; exact length_mul_le_sum hall
      calc ds.foldl Nat.min (u64 - 1)
          = ms.length * (ds.foldl Nat.min (u64 - 1)) / ms.length :=
            (Nat.mul_div_cancel_left _ hlpos).symm
        _ ≤ ds.sum / ms.length := Nat.div_le_div_right h1
    · rw [hmaxf, hmean, hmax, ht, hc]
      have hall : ∀ x ∈ ds, x ≤ ds.foldl Nat.max 0 :=
        fun x hx => le_foldl_max hx _
      have h1 : ds.sum ≤ ms.length * (ds.foldl Nat.max 0) := by
        rw [← hdslen]; exact sum_le_length_mul hall
      calc ds.sum / ms.length
          ≤ ms.length * (ds.foldl Nat.max 0) / ms.length :=
            Nat.div_le_div_right h1
        _ = ds.foldl Nat.max 0 := Nat.mul_div_cancel_left _ hlpos

/-- Witness for C7 at a concrete one-call sequence (duration 5 ms). -/
theorem c7_min_mean_max_witness :
    ((statList HTTPStat.new [⟨200, 5000000, 10, 20⟩]).count = 0 →
      (snapshot (statList HTTPStat.new [⟨200, 5000000, 10, 20⟩]) 0 0 0 0 0 0).min = 0 ∧
      (snapshot (statList HTTPStat.new [⟨200, 5000000, 10, 20⟩]) 0 0 0 0 0 0).mean = 0) ∧
    (([⟨200, 5000000, 10, 20⟩] : List Metric) ≠ [] →
      (snapshot (statList HTTPStat.new [⟨200, 5000000, 10, 20⟩]) 0 0 0 0 0 0).min ≤
        (snapshot (statList HTTPStat.new [⟨200, 5000000, 10, 20⟩]) 0 0 0 0 0 0).mean ∧
      (snapshot (statList HTTPStat.new [⟨200, 5000000, 10, 20⟩]) 0 0 0 0 0 0).mean ≤
        (snapshot (statList HTTPStat.new [⟨200, 5000000, 10, 20⟩]) 0 0 0 0 0 0).max) :=
  c7_min_mean_max [⟨200, 5000000, 10, 20⟩] 0 0 0 0 0 0
    (by decide) (by decide)

/-- C7 counterexample: two `Stat` calls whose metric carries the (type-valid)
duration of `-1` millisecond. `uint64(Duration(-1000000).Milliseconds())`
wraps to `2^64 - 1`, the `total` counter wraps to `2^64 - 2`, and the
snapshot reports `mean = 2^63 - 1` strictly below `min = 2^64 - 1` while
`count = 2 > 0` — refuting `Min ≤ Mean` as the claim states it. -/
theorem c7_counterexample :
    0 < (snapshot (statList HTTPStat.new
          [⟨200, -1000000, 0, 0⟩, ⟨200, -1000000, 0, 0⟩]) 0 0 0 0 0 0).count ∧
    (snapshot (statList HTTPStat.new
          [⟨200, -1000000, 0, 0⟩, ⟨200, -1000000, 0, 0⟩]) 0 0 0 0 0 0).mean <
      (snapshot (statList HTTPStat.new
          [⟨200, -1000000, 0, 0⟩, ⟨200, -1000000, 0, 0⟩]) 0 0 0 0 0 0).min := by
  constructor <;> decide

/-- `FlowNode` (pipeline.go:74-82): one step of the pipeline flow. The bound
filter instance pointer is not part of the spec data and is resolved through
the behaviour oracle instead; `jumpIf` is a Go map modelled as an
association list whose lookup yields `""` for absent keys. -/
structure FlowNode where
  filter : String
  requestID : String := ""
  responseID : String := ""
  useRequest : String := ""
  jumpIf : List (String × String) := []
deriving DecidableEq

/-- Go map indexing `m[k]` for a `map[string]string`: the zero value `""`
when the key is absent. -/
def mapGet (m : List (String × String)) (k : String) : String :=
  match m.find? (fun p => p.1 == k) with
  | some p => p.2
  | none => ""

/-- `FilterStat` (pipeline.go:84-90). The duration is recorded here already
rendered (`time.Duration.String()`), since wall-clock timing is external
nondeterminism; `serializeStats` treats it as an opaque token either way. -/
structure FilterStat where
  name : String
  kind : String
  result : String
  duration : String
deriving DecidableEq

/-- The filter contract consumed by `Pipeline.Handle`: for each filter name,
`handle` maps a request context (an arbitrary state `σ`) to the returned
result label and the successor context; `kind` is the filter's kind and
`dur` the rendered duration of the invocation. Quantifying theorems over
`σ` and the oracle covers every set of filter implementations and every
timing. -/
structure FilterBeh (σ : Type) where
  handle : String → σ → String × σ
  kind : String → String
  dur : String → σ → String

/-- The loop of `Pipeline.Handle` (pipeline.go:299-337), one iteration per
flow node, threading the last `result`, the pending jump target `next`, the
context and the accumulated stats. -/
def handleLoop {σ : Type} (fb : FilterBeh σ) :
    List FlowNode → String → String → σ → List FilterStat →
      String × List FilterStat × σ
  | [], result, _, ctx, stats => (result, stats, ctx)
  | node :: rest, result, next, ctx, stats =>
    if next ≠ "" ∧ node.filter ≠ next then
      handleLoop fb rest result next ctx stats
    else if node.filter = "END" then
      (result, stats, ctx)
    else
      let r := fb.handle node.filter ctx
      let stats' := stats ++
        [{ name := node.filter, kind := fb.kind node.filter,
           result := r.1, duration := fb.dur node.filter ctx }]
      let next' := if r.1 ≠ "" then mapGet node.jumpIf r.1 else next
      if next' = "END" then (r.1, stats', r.2)
      else handleLoop fb rest r.1 next' r.2 stats'

/-- The body of the `strings.Builder` loop of `serializeStats`
(pipeline.go:178-192): `first` is true on the iteration with `i = 0`. -/
def writeStats : String → Bool → List FilterStat → String
  | sb, _, [] => sb
  | sb, first, s :: rest =>
    let sb := if first then sb else sb ++ "->"
    let sb := sb ++ s.name ++ "("
    let sb := if s.result ≠ "" then sb ++ s.result ++ "," else sb
    let sb := sb ++ s.duration ++ ")"
    writeStats sb false rest

/-- `serializeStats` (pipeline.go:170-195). -/
def serializeStats (stats : List FilterStat) : String :=
  if stats.isEmpty then "pipeline: <empty>"
  else writeStats "pipeline: " true stats

/-- `Pipeline.Handle` (pipeline.go:295-341) before the tag is rendered:
the returned label, the recorded stats (in execution order) and the final
context. -/
def handleFull {σ : Type} (fb : FilterBeh σ) (flow : List FlowNode) (ctx : σ) :
    String × List FilterStat × σ :=
  handleLoop fb flow "" "" ctx []

/-- `Pipeline.Handle` (pipeline.go:295-341): the returned label, the tag
attached via `ctx.AddTag`, and the final context. -/
def handle {σ : Type} (fb : FilterBeh σ) (flow : List FlowNode) (ctx : σ) :
    String × String × σ :=
  ((handleFull fb flow ctx).1,
    serializeStats (handleFull fb flow ctx).2.1, (handleFull fb flow ctx).2.2)

/-- The `FilterStat` recorded for one invocation of the filter of `node`
in context `ctx`. -/
def statOf {σ : Type} (fb : FilterBeh σ) (node : FlowNode) (ctx : σ) :
    FilterStat :=
  ⟨node.filter, fb.kind node.filter, (fb.handle node.filter ctx).1,
    fb.dur node.filter ctx⟩

/-- The pending jump target after the filter of `node` ran in context
`ctx`: reassigned from `jumpIf` only when the returned label is non-empty
(pipeline.go:330-332). -/
def nextOf {σ : Type} (fb : FilterBeh σ) (node : FlowNode) (ctx : σ)
    (next : String) : String :=
  if (fb.handle node.filter ctx).1 ≠ "" then
    mapGet node.jumpIf (fb.handle node.filter ctx).1
  else next

/-- Unfolding lemma: one iteration of `handleLoop`. -/
theorem handleLoop_cons {σ : Type} (fb : FilterBeh σ) (node : FlowNode)
    (rest : List FlowNode) (result next : String) (ctx : σ)
    (stats : List FilterStat) :
    handleLoop fb (node :: rest) result next ctx stats =
      if next ≠ "" ∧ node.filter ≠ next then
        handleLoop fb rest result next ctx stats
      else if node.filter = "END" then (result, stats, ctx)
      else if nextOf fb node ctx next = "END" then
        ((fb.handle node.filter ctx).1, stats ++ [statOf fb node ctx],
          (fb.handle node.filter ctx).2)
      else
        handleLoop fb rest (fb.handle node.filter ctx).1
          (nextOf fb node ctx next) (fb.handle node.filter ctx).2
          (stats ++ [statOf fb node ctx]) := rfl

/-- The stats accumulator of `handleLoop` only ever grows, and the returned
label is the result of the last appended stat, or the incoming `result`
when no filter ran. -/
theorem handleLoop_last {σ : Type} (fb : FilterBeh σ) :
    ∀ (flow : List FlowNode) (result next : String) (ctx : σ)
      (stats : List FilterStat),
      ∃ L, (handleLoop fb flow result next ctx stats).2.1 = stats ++ L ∧
        (handleLoop fb flow result next ctx stats).1 =
          (L.map FilterStat.result).getLastD result := by
  intro flow
  induction flow with
  | nil =>
    intro result next ctx stats
    exact ⟨[], by simp [handleLoop]⟩
  | cons node rest ih =>
    intro result next ctx stats
    rw [handleLoop_cons]
    by_cases hskip : next ≠ "" ∧ node.filter ≠ next
    · rw [if_pos hskip]; exact ih result next ctx stats
    · rw [if_neg hskip]
      by_cases hend : node.filter = "END"
      · rw [if_pos hend]
        exact ⟨[], by simp⟩
      · rw [if_neg hend]
        by_cases hjump : nextOf fb node ctx next = "END"
        · rw [if_pos hjump]
          exact ⟨[statOf fb node ctx], rfl, by simp [statOf]⟩
        · rw [if_neg hjump]
          obtain ⟨L, hL, hr⟩ := ih (fb.handle node.filter ctx).1
            (nextOf fb node ctx next) (fb.handle node.filter ctx).2
            (stats ++ [statOf fb node ctx])
          refine ⟨statOf fb node ctx :: L, ?_, ?_⟩
          · rw [hL]; simp
          · rw [hr, List.map_cons, List.getLastD_cons]
            rfl

/-- C2: for every filter behaviour, flow and request context,
`Pipeline.Handle` returns the result label of the last filter it invoked
(the last recorded stat), or the empty string when no filter was invoked;
in particular both the empty flow and the flow consisting solely of the
`END` node return the empty label. -/
theorem c2_last_label {σ : Type} (fb : FilterBeh σ) (flow : List FlowNode)
    (ctx : σ) :
    (handle fb flow ctx).1 =
      ((handleFull fb flow ctx).2.1.map FilterStat.result).getLastD "" ∧
    (handle fb ([] : List FlowNode) ctx).1 = "" ∧
    (handle fb [{ filter := "END" }] ctx).1 = "" := by
  refine ⟨?_, rfl, rfl⟩
  obtain ⟨L, hL, hr⟩ := handleLoop_last fb flow "" "" ctx []
  show (handleLoop fb flow "" "" ctx []).1 =
    (((handleLoop fb flow "" "" ctx []).2.1).map FilterStat.result).getLastD ""
  rw [hr, hL]
  simp

/-- When the pending jump target `next` is non-empty and no remaining node
carries that filter name, the loop skips every remaining node without
invoking anything (pipeline.go:300-302). -/
theorem handleLoop_skip_all {σ : Type} (fb : FilterBeh σ) :
    ∀ (rest : List FlowNode) (result next : String) (ctx : σ)
      (stats : List FilterStat),
      next ≠ "" → (∀ n ∈ rest, n.filter ≠ next) →
      handleLoop fb rest result next ctx stats = (result, stats, ctx) := by
  intro rest
  induction rest with
  | nil => intro result next ctx stats _ _; rfl
  | cons node rest ih =>
    intro result next ctx stats hne hall
    rw [handleLoop_cons,
      if_pos ⟨hne, hall node (List.mem_cons_self node rest)⟩]
    exact ih result next ctx stats hne
      fun n hn => hall n (List.mem_cons_of_mem node hn)

/-- C10: `next` is reassigned only on a non-empty label, so when the node
reached via a pending jump (`next = node.filter`) has its filter return the
empty label, `next` keeps naming that filter; every remaining node with a
different filter name is skipped without being invoked, and the loop — and
hence `Pipeline.Handle` — returns the empty string, recording only that one
invocation. -/
theorem c10_empty_label_freezes_jump {σ : Type} (fb : FilterBeh σ)
    (node : FlowNode) (rest : List FlowNode) (result : String) (ctx : σ)
    (stats : List FilterStat)
    (hfne : node.filter ≠ "") (hfend : node.filter ≠ "END")
    (hempty : (fb.handle node.filter ctx).1 = "")
    (hrest : ∀ n ∈ rest, n.filter ≠ node.filter) :
    handleLoop fb (node :: rest) result node.filter ctx stats =
      ("", stats ++ [statOf fb node ctx], (fb.handle node.filter ctx).2) := by
  rw [handleLoop_cons]
  rw [if_neg (by simp)]
  rw [if_neg hfend]
  have hnext : nextOf fb node ctx node.filter = node.filter := by
    simp [nextOf, hempty]
  rw [hnext, if_neg hfend]
  rw [handleLoop_skip_all fb rest (fb.handle node.filter ctx).1 node.filter
    (fb.handle node.filter ctx).2 (stats ++ [statOf fb node ctx]) hfne hrest]
  rw [hempty]

/-- A concrete behaviour oracle over the trivial context: every filter
returns the empty label, is of kind `K`, and every invocation renders as
`1ms`. -/
def fbEmpty : FilterBeh Unit :=
  { handle := fun _ c => ("", c), kind := fun _ => "K", dur := fun _ _ => "1ms" }

/-- Witness for C10: the loop sits at node `A` with pending jump `A`; the
filter returns the empty label, so node `B` is skipped and the empty string
is returned. -/
theorem c10_witness :
    handleLoop fbEmpty [{ filter := "A" }, { filter := "B" }] "r" "A" () [] =
      ("", [] ++ [statOf fbEmpty { filter := "A" } ()],
        (fbEmpty.handle "A" ()).2) :=
  c10_empty_label_freezes_jump fbEmpty { filter := "A" } [{ filter := "B" }]
    "r" () [] (by decide) (by decide) rfl (by decide)

/-- C5 counterexample: a single executed filter returning the empty label
is serialized as `A(1ms)` — the comma is written only when the result label
is non-empty (pipeline.go:186-189) — whereas the claim prescribes
`A(,1ms)`. -/
theorem c5_counterexample :
    (handle fbEmpty [{ filter := "A" }] ()).2.1 = "pipeline: A(1ms)" ∧
    (("pipeline: A(1ms)" == "pipeline: A(,1ms)") = false) := by
  constructor
  · rfl
  · rfl

/-- One tag entry as the amended C5 states it: `name(result,dur)` when the
result label is non-empty, `name(dur)` when it is empty. -/
def statEntry (s : FilterStat) : String :=
  s.name ++ "(" ++ (if s.result = "" then "" else s.result ++ ",") ++
    s.duration ++ ")"

/-- The builder state after one `serializeStats` iteration is the incoming
state followed by the node's entry (plus the separator on non-first
iterations). -/
theorem writeStats_cons_true (s : FilterStat) (l : List FilterStat)
    (sb : String) :
    writeStats sb true (s :: l) = writeStats (sb ++ statEntry s) false l := by
  show writeStats
    ((if s.result ≠ "" then sb ++ s.name ++ "(" ++ s.result ++ ","
      else sb ++ s.name ++ "(") ++ s.duration ++ ")") false l = _
  have hseed : (if s.result ≠ "" then sb ++ s.name ++ "(" ++ s.result ++ ","
      else sb ++ s.name ++ "(") ++ s.duration ++ ")" = sb ++ statEntry s := by
    by_cases hr : s.result = "" <;> simp [statEntry, hr, String.append_assoc]
  rw [hseed]

/-- Once past the first iteration, the `serializeStats` loop is a left fold
appending `"->" ++ statEntry x` per stat. -/
theorem writeStats_false_foldl (l : List FilterStat) :
    ∀ sb : String,
      writeStats sb false l =
        l.foldl (fun acc x => acc ++ "->" ++ statEntry x) sb := by
  induction l with
  | nil => intro sb; rfl
  | cons s l ih =>
    intro sb
    show writeStats
      ((if s.result ≠ "" then sb ++ "->" ++ s.name ++ "(" ++ s.result ++ ","
        else sb ++ "->" ++ s.name ++ "(") ++ s.duration ++ ")") false l = _
    have hseed : (if s.result ≠ ""
          then sb ++ "->" ++ s.name ++ "(" ++ s.result ++ ","
          else sb ++ "->" ++ s.name ++ "(") ++ s.duration ++ ")" =
        (sb ++ "->") ++ statEntry s := by
      by_cases hr : s.result = "" <;> simp [statEntry, hr, String.append_assoc]
    rw [hseed, ih]
    simp [String.append_assoc]

/-- `String.intercalate.go` is the same left fold over plain strings. -/
theorem intercalate_go_foldl (l : List String) :
    ∀ acc : String,
      String.intercalate.go acc "->" l =
        l.foldl (fun acc x => acc ++ "->" ++ x) acc := by
  induction l with
  | nil => intro acc; rfl
  | cons a l ih =>
    intro acc
    show String.intercalate.go (acc ++ "->" ++ a) "->" l = _
    rw [ih]
    rfl

/-- A common prefix pulls out of the tag fold. -/
theorem foldl_tag_pull (l : List FilterStat) :
    ∀ p a : String,
      l.foldl (fun acc x => acc ++ "->" ++ statEntry x) (p ++ a) =
        p ++ l.foldl (fun acc x => acc ++ "->" ++ statEntry x) a := by
  induction l with
  | nil => intro p a; rfl
  | cons s l ih =>
    intro p a
    simp only [List.foldl_cons]
    rw [show p ++ a ++ "->" ++ statEntry s = p ++ (a ++ "->" ++ statEntry s) by
      simp [String.append_assoc], ih]

/-- `serializeStats` on a non-empty stats list renders the amended tag. -/
theorem serializeStats_eq_intercalate (s : FilterStat) (l : List FilterStat) :
    serializeStats (s :: l) =
      "pipeline: " ++ String.intercalate "->" ((s :: l).map statEntry) := by
  rw [serializeStats, if_neg (by simp)]
  rw [writeStats_cons_true, writeStats_false_foldl]
  rw [List.map_cons]
  show _ = "pipeline: " ++ String.intercalate.go (statEntry s) "->" (l.map statEntry)
  rw [intercalate_go_foldl, List.foldl_map, foldl_tag_pull]

/-- C5 (amended): on every termination of `Pipeline.Handle` with at least
one executed filter, the tag attached via `ctx.AddTag` is `"pipeline: "`
followed by the per-filter entries joined by `"->"`, in execution order,
where an entry is `name(result,dur)` for a non-empty result label and
`name(dur)` — without the comma — for an empty one. -/
theorem c5_tag_format {σ : Type} (fb : FilterBeh σ) (flow : List FlowNode)
    (ctx : σ) (h : (handleFull fb flow ctx).2.1 ≠ []) :
    (handle fb flow ctx).2.1 =
      "pipeline: " ++
        String.intercalate "->" ((handleFull fb flow ctx).2.1.map statEntry) := by
  show serializeStats (handleFull fb flow ctx).2.1 = _
  cases hst : (handleFull fb flow ctx).2.1 with
  | nil => exact absurd hst h
  | cons s l => exact serializeStats_eq_intercalate s l

/-- Witness for C5 at a concrete run: one executed filter with the empty
result label. -/
theorem c5_tag_format_witness :
    (handle fbEmpty [{ filter := "A" }] ()).2.1 =
      "pipeline: " ++
        String.intercalate "->"
          ((handleFull fbEmpty [{ filter := "A" }] ()).2.1.map statEntry) :=
  c5_tag_format fbEmpty [{ filter := "A" }] () (by decide)

/-- A filter lifecycle call made by `Pipeline.reload`/`Inherit`. -/
inductive FilterEvent where
  | initEv (name : String)
  | inheritEv (name : String)
  | closeEv (name : String)
deriving DecidableEq

/-- The lifecycle calls issued by `reload` (pipeline.go:255-271) when
invoked from `Inherit` (pipeline.go:220-229), in spec order: a new filter
whose name exists in the previous generation's filter map receives
`Inherit(spec, prev)`, any other receives `Init(spec)`. No `Close` is ever
issued: the `previousGeneration.Close()` call in `Inherit` is commented out
(pipeline.go:225-228). -/
def reloadEvents (specNames : List String) (prevNames : List String) :
    List FilterEvent :=
  specNames.map fun n =>
    if n ∈ prevNames then FilterEvent.inheritEv n else FilterEvent.initEv n

/-- C3: contrary to the claim, `Inherit` closes nothing — for every new
spec, every previous generation and every filter name (in particular one
absent from the new spec), the number of `Close` calls is `0`, not `1`. -/
theorem c3_inherit_closes_nothing (specNames prevNames : List String)
    (n : String) :
    (reloadEvents specNames prevNames).count (FilterEvent.closeEv n) = 0 := by
  induction specNames with
  | nil => rfl
  | cons m specNames ih =>
    simp only [reloadEvents, List.map_cons, List.count_cons] at *
    rw [ih]
    by_cases hm : m ∈ prevNames <;> simp [hm]

/-- `FilterSpec` as far as `Spec.Validate` consumes it: its `Name()` and
`Kind()`. The kind-specific body is opaque to the pipeline engine. -/
structure FilterSpec where
  name : String
  kind : String
deriving DecidableEq

/-- Modelled from the spec: `NewFilterSpec` (its source file is not under
`src/`) builds a `FilterSpec` from one raw filter entry, "checking that the
embedded name is non-empty … that the kind resolves in the registry; and
that the body conforms to the kind's schema (delegated to the kind)". The
registry — a process-wide map from kind name to the kind's declared result
labels — is passed as a parameter; the delegated body check is abstracted
away. `NewFilterSpec` sees a single entry, so it can carry no cross-entry
check. -/
def newFilterSpec (registry : String → Option (List String))
    (f : FilterSpec) : Except String FilterSpec :=
  if f.name = "" then Except.error "filter name is empty"
  else
    match registry f.kind with
    | none => Except.error ("kind " ++ f.kind ++ " not found")
    | some _ => Except.ok f

/-- `Spec` (pipeline.go:68-72): the flow and the filter entries. -/
structure Spec where
  flow : List FlowNode
  filters : List FilterSpec
deriving DecidableEq

/-- Phase 1 of `Spec.Validate` (pipeline.go:110-124): build each
`FilterSpec`, reject the reserved name `END`, and store the spec under its
name — a Go map write that silently overwrites an earlier entry of the same
name, modelled by prepending so that lookup finds the most recent entry. -/
def validateFilters (registry : String → Option (List String)) :
    List FilterSpec → List (String × String) →
      Except String (List (String × String))
  | [], specs => Except.ok specs
  | f :: rest, specs =>
    match newFilterSpec registry f with
    | Except.error e => Except.error e
    | Except.ok spec =>
      if spec.name = "END" then
        Except.error ("can't use " ++ spec.name ++ "(built-in) for filter name")
      else validateFilters registry rest ((spec.name, spec.kind) :: specs)

/-- Go map lookup `specs[name]` over the phase-1 store. -/
def lookupSpec (specs : List (String × String)) (name : String) :
    Option String :=
  (specs.find? fun p => p.1 == name).map fun p => p.2

/-- The `jumpIf` checks for one node (pipeline.go:141-150): every key must
be a declared result of the node's kind and every target must already be a
valid name. -/
def checkJumpIf (nodeName : String) (results : List String)
    (valid : List String) : List (String × String) → Except String Unit
  | [] => Except.ok ()
  | (result, target) :: rest =>
    if result ∉ results then
      Except.error ("filter " ++ nodeName ++ ": result " ++ result ++
        " is not in the declared results")
    else if target ∉ valid then
      Except.error ("filter " ++ nodeName ++ ": target filter " ++ target ++
        " not found")
    else checkJumpIf nodeName results valid rest

/-- Phase 2.1 of `Spec.Validate` (pipeline.go:129-152): walk the flow from
its last node to its first (the argument list is the reversed flow),
accumulating the set of valid jump targets starting from `{END}`; `END`
nodes are skipped, each other node must name a known filter, its `jumpIf`
entries are checked, and then its name becomes a valid target. -/
def validateJumps (registry : String → Option (List String))
    (specs : List (String × String)) :
    List FlowNode → List String → Except String (List String)
  | [], valid => Except.ok valid
  | node :: rest, valid =>
    if node.filter = "END" then validateJumps registry specs rest valid
    else
      match lookupSpec specs node.filter with
      | none => Except.error ("filter " ++ node.filter ++ " not found")
      | some kind =>
        match checkJumpIf node.filter ((registry kind).getD []) valid
            node.jumpIf with
        | Except.error e => Except.error e
        | Except.ok _ =>
          validateJumps registry specs rest (node.filter :: valid)

/-- Phase 2.2 of `Spec.Validate` (pipeline.go:154-165): walk the flow left
to right accumulating produced request identifiers from `{Default}`; a
non-empty `useRequest` must already be in the set. -/
def validateRequests : List FlowNode → List String → Except String Unit
  | [], _ => Except.ok ()
  | node :: rest, valid =>
    if node.useRequest ≠ "" ∧ node.useRequest ∉ valid then
      Except.error ("filter " ++ node.filter ++ ": desired request " ++
        node.useRequest ++ " not found")
    else
      validateRequests rest
        (if node.requestID ≠ "" then node.requestID :: valid else valid)

/-- `Spec.Validate` (pipeline.go:99-168): the panic/recover error plumbing
is modelled by `Except`. -/
def validate (registry : String → Option (List String)) (s : Spec) :
    Except String Unit :=
  match validateFilters registry s.filters [] with
  | Except.error e => Except.error e
  | Except.ok specs =>
    match validateJumps registry specs s.flow.reverse ["END"] with
    | Except.error e => Except.error e
    | Except.ok _ => validateRequests s.flow ["Default"]

/-- Whether validation succeeded (`err == nil` in Go). -/
def validateOk (e : Except String Unit) : Bool :=
  match e with
  | Except.ok _ => true
  | Except.error _ => false

/-- A successful `newFilterSpec` returns its input entry. -/
theorem newFilterSpec_ok {registry : String → Option (List String)}
    {f spec : FilterSpec} (h : newFilterSpec registry f = Except.ok spec) :
    spec = f := by
  unfold newFilterSpec at h
  by_cases h1 : f.name = ""
  · rw [if_pos h1] at h; cases h
  · rw [if_neg h1] at h
    cases hr : registry f.kind with
    | none => rw [hr] at h; cases h
    | some rs => rw [hr] at h; cases h; rfl

/-- A successful phase 1 stores exactly the entries' name/kind pairs, most
recent first, on top of the incoming store. -/
theorem validateFilters_ok_spec (registry : String → Option (List String)) :
    ∀ (fs : List FilterSpec) (specs sp : List (String × String)),
      validateFilters registry fs specs = Except.ok sp →
      sp = (fs.map fun f => (f.name, f.kind)).reverse ++ specs := by
  intro fs
  induction fs with
  | nil =>
    intro specs sp h
    cases h
    simp
  | cons f rest ih =>
    intro specs sp h
    simp only [validateFilters] at h
    cases hn : newFilterSpec registry f with
    | error e => rw [hn] at h; cases h
    | ok spec =>
      rw [hn, newFilterSpec_ok hn] at h
      replace h : (if f.name = "END" then
          (Except.error ("can't use " ++ f.name ++ "(built-in) for filter name")
            : Except String (List (String × String)))
        else validateFilters registry rest ((f.name, f.kind) :: specs)) =
          Except.ok sp := h
      by_cases hE : f.name = "END"
      · rw [if_pos hE] at h; cases h
      · rw [if_neg hE] at h
        rw [ih ((f.name, f.kind) :: specs) sp h]
        simp [List.append_assoc]

/-- Every entry of a successfully validated filter list has a registered
kind. -/
theorem validateFilters_ok_registry
    (registry : String → Option (List String)) :
    ∀ (fs : List FilterSpec) (specs sp : List (String × String)),
      validateFilters registry fs specs = Except.ok sp →
      ∀ f ∈ fs, (registry f.kind).isSome := by
  intro fs
  induction fs with
  | nil => intro _ _ _ f hf; cases hf
  | cons g rest ih =>
    intro specs sp h f hf
    simp only [validateFilters] at h
    cases hn : newFilterSpec registry g with
    | error e => rw [hn] at h; cases h
    | ok spec =>
      rw [hn, newFilterSpec_ok hn] at h
      replace h : (if g.name = "END" then
          (Except.error ("can't use " ++ g.name ++ "(built-in) for filter name")
            : Except String (List (String × String)))
        else validateFilters registry rest ((g.name, g.kind) :: specs)) =
          Except.ok sp := h
      rcases List.mem_cons.mp hf with heq | hf'
      · subst heq
        unfold newFilterSpec at hn
        by_cases h1 : f.name = ""
        · rw [if_pos h1] at hn; cases hn
        · rw [if_neg h1] at hn
          cases hr : registry f.kind with
          | none => rw [hr] at hn; cases hn
          | some rs => simp [hr]
      · by_cases hE : g.name = "END"
        · rw [if_pos hE] at h; cases h
        · rw [if_neg hE] at h
          exact ih ((g.name, g.kind) :: specs) sp h f hf'

/-- The kind of the last filter entry carrying a given name — the one a Go
map retains after phase 1's overwrites. -/
def lastKind (fs : List FilterSpec) (name : String) : Option String :=
  (fs.reverse.find? fun f => f.name == name).map fun f => f.kind

/-- Looking a name up in the phase-1 store yields the last entry's kind. -/
theorem lookupSpec_eq_lastKind (fs : List FilterSpec) (name : String) :
    lookupSpec ((fs.map fun f => (f.name, f.kind)).reverse) name =
      lastKind fs name := by
  unfold lookupSpec lastKind
  rw [← List.map_reverse]
  rw [List.find?_map]
  simp [Function.comp_def, Option.map_map]

/-- A `lastKind` hit names an actual entry of the filter list. -/
theorem lastKind_mem {fs : List FilterSpec} {name k : String}
    (h : lastKind fs name = some k) :
    ∃ f ∈ fs, f.name = name ∧ f.kind = k := by
  unfold lastKind at h
  cases hf : fs.reverse.find? fun f => f.name == name with
  | none => rw [hf] at h; cases h
  | some f =>
    rw [hf] at h
    cases h
    refine ⟨f, ?_, ?_, rfl⟩
    · exact List.mem_reverse.mp (List.mem_of_find?_eq_some hf)
    · have hb := List.find?_some hf
      exact eq_of_beq hb

/-- A successful `checkJumpIf` certifies every `jumpIf` pair of the node:
the key is declared and the target already valid. -/
theorem checkJumpIf_ok_mem (nodeName : String) (results valid : List String) :
    ∀ (l : List (String × String)) (u : Unit),
      checkJumpIf nodeName results valid l = Except.ok u →
      ∀ r t, (r, t) ∈ l → r ∈ results ∧ t ∈ valid := by
  intro l
  induction l with
  | nil => intro u _ r t hmem; cases hmem
  | cons p rest ih =>
    intro u hok r t hmem
    obtain ⟨pr, pt⟩ := p
    simp only [checkJumpIf] at hok
    by_cases h1 : pr ∉ results
    · rw [if_pos h1] at hok; cases hok
    · rw [if_neg h1] at hok
      by_cases h2 : pt ∉ valid
      · rw [if_pos h2] at hok; cases hok
      · rw [if_neg h2] at hok
        rcases List.mem_cons.mp hmem with heq | hmem'
        · injection heq with hr ht
          subst hr; subst ht
          exact ⟨not_not.mp h1, not_not.mp h2⟩
        · exact ih u hok r t hmem'

/-- Soundness of the backward walk: when the whole walk succeeds, every
`jumpIf` pair of a non-`END` node whose processing was preceded by the
nodes of `l1` has a declared key and a target that was valid initially or
is the filter name of one of the `l1` nodes. -/
theorem validateJumps_ok_mem (registry : String → Option (List String))
    (specs : List (String × String)) :
    ∀ (l1 : List FlowNode) (node : FlowNode) (l2 : List FlowNode)
      (valid v' : List String),
      validateJumps registry specs (l1 ++ node :: l2) valid = Except.ok v' →
      node.filter ≠ "END" →
      ∀ r t, (r, t) ∈ node.jumpIf →
        ∃ k, lookupSpec specs node.filter = some k ∧
          r ∈ (registry k).getD [] ∧
          (t ∈ valid ∨ t ∈ l1.map FlowNode.filter) := by
  intro l1
  induction l1 with
  | nil =>
    intro node l2 valid v' hok hne r t hmem
    simp only [List.nil_append, validateJumps] at hok
    rw [if_neg hne] at hok
    cases hl : lookupSpec specs node.filter with
    | none => rw [hl] at hok; cases hok
    | some kind =>
      rw [hl] at hok
      replace hok : (match checkJumpIf node.filter ((registry kind).getD [])
            valid node.jumpIf with
        | Except.error e => (Except.error e : Except String (List String))
        | Except.ok _ =>
            validateJumps registry specs l2 (node.filter :: valid)) =
          Except.ok v' := hok
      cases hc : checkJumpIf node.filter ((registry kind).getD []) valid
          node.jumpIf with
      | error e => rw [hc] at hok; cases hok
      | ok u =>
        obtain ⟨hr, ht⟩ :=
          checkJumpIf_ok_mem node.filter ((registry kind).getD []) valid
            node.jumpIf u hc r t hmem
        exact ⟨kind, rfl, hr, Or.inl ht⟩
  | cons a l1' ih =>
    intro node l2 valid v' hok hne r t hmem
    simp only [List.cons_append, validateJumps] at hok
    by_cases ha : a.filter = "END"
    · rw [if_pos ha] at hok
      obtain ⟨k, hk, hr, ht⟩ := ih node l2 valid v' hok hne r t hmem
      refine ⟨k, hk, hr, ?_⟩
      rcases ht with h | h
      · exact Or.inl h
      · refine Or.inr ?_
        simp only [List.map_cons, List.mem_cons]
        exact Or.inr h
    · rw [if_neg ha] at hok
      cases hl : lookupSpec specs a.filter with
      | none => rw [hl] at hok; cases hok
      | some kind =>
        rw [hl] at hok
        replace hok : (match checkJumpIf a.filter ((registry kind).getD [])
              valid a.jumpIf with
          | Except.error e => (Except.error e : Except String (List String))
          | Except.ok _ =>
              validateJumps registry specs (l1' ++ node :: l2)
                (a.filter :: valid)) =
            Except.ok v' := hok
        cases hc : checkJumpIf a.filter ((registry kind).getD []) valid
            a.jumpIf with
        | error e => rw [hc] at hok; cases hok
        | ok u =>
          rw [hc] at hok
          obtain ⟨k, hk, hr, ht⟩ :=
            ih node l2 (a.filter :: valid) v' hok hne r t hmem
          refine ⟨k, hk, hr, ?_⟩
          rcases ht with h | h
          · rcases List.mem_cons.mp h with h' | h'
            · refine Or.inr ?_
              simp only [List.map_cons, List.mem_cons]
              exact Or.inl h'
            · exact Or.inl h'
          · refine Or.inr ?_
            simp only [List.map_cons, List.mem_cons]
            exact Or.inr h

/-- C4: for every registry and spec whose flow contains a node carrying a
`jumpIf` pair `(r, t)`, `Spec.Validate` fails whenever `t` is neither
`END` nor the filter name of a node appearing later in the flow (covering
in particular a backward jump to an earlier node), and likewise whenever
the key `r` is not among the declared results of the node's filter kind
(the kind of the last filter entry carrying that name, the one a Go map
retains). -/
theorem c4_validate_rejects (registry : String → Option (List String))
    (s : Spec) (pre post : List FlowNode) (node : FlowNode) (r t : String)
    (hsplit : s.flow = pre ++ node :: post)
    (hnend : node.filter ≠ "END")
    (hmem : (r, t) ∈ node.jumpIf)
    (hbad : (t ≠ "END" ∧ ∀ m ∈ post, m.filter ≠ t) ∨
      (∀ k rs, lastKind s.filters node.filter = some k →
        registry k = some rs → r ∉ rs)) :
    validateOk (validate registry s) = false := by
  cases hv : validate registry s with
  | error e => rfl
  | ok u =>
    exfalso
    unfold validate at hv
    cases hf : validateFilters registry s.filters [] with
    | error e => rw [hf] at hv; cases hv
    | ok specs =>
      rw [hf] at hv
      replace hv : (match validateJumps registry specs s.flow.reverse ["END"]
          with
        | Except.error e => (Except.error e : Except String Unit)
        | Except.ok _ => validateRequests s.flow ["Default"]) =
          Except.ok u := hv
      cases hj : validateJumps registry specs s.flow.reverse ["END"] with
      | error e => rw [hj] at hv; cases hv
      | ok v' =>
        have hrev : s.flow.reverse = post.reverse ++ node :: pre.reverse := by
          rw [hsplit]
          simp [List.reverse_append, List.append_assoc]
        rw [hrev] at hj
        obtain ⟨k, hk, hr, ht⟩ :=
          validateJumps_ok_mem registry specs post.reverse node pre.reverse
            ["END"] v' hj hnend r t hmem
        have hspecs : specs = (s.filters.map fun f => (f.name, f.kind)).reverse :=
          by simpa using validateFilters_ok_spec registry s.filters [] specs hf
        rcases hbad with ⟨htE, hpost⟩ | hres
        · rcases ht with h | h
          · rcases List.mem_cons.mp h with h' | h'
            · exact htE h'
            · cases h'
          · rcases List.mem_map.mp h with ⟨m, hm, hmf⟩
            exact hpost m (List.mem_reverse.mp hm) hmf
        · rw [hspecs, lookupSpec_eq_lastKind] at hk
          obtain ⟨f, hfmem, hfname, hfkind⟩ := lastKind_mem hk
          have hreg : (registry f.kind).isSome :=
            validateFilters_ok_registry registry s.filters [] specs hf f hfmem
          obtain ⟨rs, hrs⟩ := Option.isSome_iff_exists.mp hreg
          rw [hfkind] at hrs
          have hnot := hres k rs hk hrs
          rw [hrs] at hr
          exact hnot (by simpa using hr)

/-- A concrete registry with a single kind `K` declaring the results
`retry` and `ok`. -/
def regK : String → Option (List String) :=
  fun k => if k = "K" then some ["retry", "ok"] else none

/-- A spec whose flow `[A, B]` carries a backward jump `B.jumpIf =
{retry: A}`. -/
def backSpec : Spec :=
  { flow := [{ filter := "A" },
      { filter := "B", jumpIf := [("retry", "A")] }]
    filters := [⟨"A", "K"⟩, ⟨"B", "K"⟩] }

/-- Witness for C4: validation rejects the backward jump of `backSpec`. -/
theorem c4_validate_rejects_witness :
    validateOk (validate regK backSpec) = false :=
  c4_validate_rejects regK backSpec [{ filter := "A" }] []
    { filter := "B", jumpIf := [("retry", "A")] } "retry" "A" rfl
    (by decide) (by decide)
    (Or.inl ⟨by decide, by intro m hm; cases hm⟩)

/-- C8 counterexample: a spec whose two filter entries share the name `A`
passes `Spec.Validate` — phase 1 has no uniqueness check, the second map
write silently overwrites the first (pipeline.go:111-124) — whereas the
claim requires a non-nil error. -/
theorem c8_counterexample :
    validate regK { flow := [], filters := [⟨"A", "K"⟩, ⟨"A", "K"⟩] } =
      Except.ok () := rfl

/-- C8 (amended): `Spec.Validate` checks no name uniqueness — every spec
with an empty flow whose filter entries each individually validate
(non-empty name, name ≠ `END`, registered kind) is accepted, duplicated
names included; the later entry merely overwrites the earlier in the
name→spec map. -/
theorem c8_no_uniqueness_check (registry : String → Option (List String))
    (fs : List FilterSpec)
    (h : ∀ f ∈ fs, f.name ≠ "" ∧ f.name ≠ "END" ∧ (registry f.kind).isSome) :
    validate registry { flow := [], filters := fs } = Except.ok () := by
  have hok : ∀ (fs' : List FilterSpec),
      (∀ f ∈ fs', f.name ≠ "" ∧ f.name ≠ "END" ∧ (registry f.kind).isSome) →
      ∀ specs, ∃ sp, validateFilters registry fs' specs = Except.ok sp := by
    intro fs'
    induction fs' with
    | nil => intro _ specs; exact ⟨specs, rfl⟩
    | cons f rest ih =>
      intro hh specs
      obtain ⟨h1, h2, h3⟩ := hh f (List.mem_cons_self f rest)
      obtain ⟨rs, hrs⟩ := Option.isSome_iff_exists.mp h3
      have hn : newFilterSpec registry f = Except.ok f := by
        unfold newFilterSpec
        rw [if_neg h1, hrs]
      obtain ⟨sp, hsp⟩ :=
        ih (fun g hg => hh g (List.mem_cons_of_mem f hg))
          ((f.name, f.kind) :: specs)
      refine ⟨sp, ?_⟩
      simp only [validateFilters]
      rw [hn]
      show (if f.name = "END" then
          (Except.error ("can't use " ++ f.name ++ "(built-in) for filter name")
            : Except String (List (String × String)))
        else validateFilters registry rest ((f.name, f.kind) :: specs)) =
          Except.ok sp
      rw [if_neg h2]
      exact hsp
  obtain ⟨sp, hsp⟩ := hok fs h []
  unfold validate
  rw [hsp]
  rfl

/-- Witness for C8 at a concrete registry and a filter list containing the
name `A` twice. -/
theorem c8_no_uniqueness_check_witness :
    validate regK
        { flow := [], filters := [⟨"A", "K"⟩, ⟨"B", "K"⟩, ⟨"A", "K"⟩] } =
      Except.ok () :=
  c8_no_uniqueness_check regK [⟨"A", "K"⟩, ⟨"B", "K"⟩, ⟨"A", "K"⟩]
    (by decide)

end Easegress
